import Mathlib

/-
  Verification of the log-utility contract declared in
  src/internal/frontend/bridge-gui/bridgepp/bridgepp/Log/LogUtils.h.

  The header declares two parameterless, value-returning operations:
    QString userLogsDir();
    QByteArray tailOfLatestBridgeLog();
  Their bodies (LogUtils.cpp) are not part of the provided sources, so the
  behaviour of each operation is modelled from the specification, with the
  ambient filesystem state made explicit as an Env value.
-/

namespace bridgepp

/-- A byte of a log file, modelled as a natural number. -/
abbrev Byte := Nat

/-- One file in the resolved logs directory: its name, its last-modified
timestamp, its contents as a byte sequence, and whether the current user can
read it. -/
structure LogFile where
  name : String
  mtime : Nat
  contents : List Byte
  readable : Bool
deriving Repr, DecidableEq

/-- The ambient environment an invocation observes: whether the OS per-user
application-data facility is available, the per-user application-data root
path it yields, whether the resolved logs directory exists on disk, and the
log files that directory contains. -/
structure Env where
  osFacilityAvailable : Bool
  userDataRoot : String
  logsDirExists : Bool
  files : List LogFile
deriving Repr, DecidableEq

/-- Modelled from the spec: the fixed cap on the number of trailing bytes
returned, a configuration constant of 64 KiB. The constant itself is not in
the provided sources (LogUtils.cpp is absent). -/
def logTailMaxSize : Nat := 64 * 1024

/-- Modelled from the spec: the fixed application-specific path segment
appended to the per-user application-data root
(app-data-root, then vendor, app name and logs). -/
def logsSubPath : String := "/protonmail/bridge/logs"

/-- Modelled from the spec: the body of userLogsDir (LogUtils.cpp is not in
the provided sources; only its declaration in LogUtils.h is). It derives the
logs directory path from the per-user application-data root and the fixed
segment; if the underlying OS facility is unavailable it returns an empty
path instead of raising an error. It never consults the directory contents
and never creates the directory. -/
def userLogsDir (env : Env) : String :=
  if env.osFacilityAvailable then env.userDataRoot ++ logsSubPath else ""

/-- Lexicographic ordering on character lists by code point, used to break
timestamp ties between file names. -/
def charsLt : List Char → List Char → Bool
  | [], [] => false
  | [], _ :: _ => true
  | _ :: _, [] => false
  | a :: as, b :: bs =>
    if a.toNat < b.toNat then true
    else if b.toNat < a.toNat then false
    else charsLt as bs

/-- Name ordering on strings, via the underlying character list. -/
def nameLt (a b : String) : Bool :=
  charsLt a.data b.data

/-- The recency ordering on log files: more recent last-modified timestamp
wins; equal timestamps are broken by the greater file name. -/
def fileLt (a b : LogFile) : Prop :=
  a.mtime < b.mtime ∨ (a.mtime = b.mtime ∧ nameLt a.name b.name = true)

instance (a b : LogFile) : Decidable (fileLt a b) := by
  unfold fileLt
  exact inferInstance

/-- Modelled from the spec: the selection step picking the more recent of two
files (most recent modification timestamp, ties broken by the greater file
name). -/
def latestOf (a b : LogFile) : LogFile :=
  if a.mtime < b.mtime then b
  else if a.mtime = b.mtime ∧ nameLt a.name b.name = true then b
  else a

/-- Modelled from the spec: the latest log file among the directory contents
under the recency ordering, or none when the directory holds no file. -/
def latestLogFile : List LogFile → Option LogFile
  | [] => none
  | f :: fs => some (fs.foldl latestOf f)

/-- Modelled from the spec: listing the resolved logs directory, a fallible
step. It fails when the OS facility is unavailable (no directory can be
resolved) or when the resolved directory does not exist on disk. -/
def tryListLogsDir (env : Env) : Option (List LogFile) :=
  if env.osFacilityAvailable ∧ env.logsDirExists then some env.files else none

/-- Modelled from the spec: reading the contents of one log file, a fallible
step that fails when the file is unreadable. -/
def tryReadFile (f : LogFile) : Option (List Byte) :=
  if f.readable then some f.contents else none

/-- The trailing bytes of a byte sequence, up to the given cap: the whole
sequence when it is shorter than the cap, its suffix of the length of the cap
otherwise. -/
def tailBytes (cap : Nat) (bs : List Byte) : List Byte :=
  bs.drop (bs.length - cap)

/-- Modelled from the spec: the body of tailOfLatestBridgeLog (LogUtils.cpp
is not in the provided sources; only its declaration in LogUtils.h is). It
resolves and lists the logs directory, selects the latest file under the
recency ordering, reads it, and returns at most logTailMaxSize trailing
bytes; every failing step collapses to the empty byte sequence instead of an
error. -/
def tailOfLatestBridgeLog (env : Env) : List Byte :=
  match tryListLogsDir env with
  | none => []
  | some files =>
    match latestLogFile files with
    | none => []
    | some f =>
      match tryReadFile f with
      | none => []
      | some bs => tailBytes logTailMaxSize bs

/-- Modelled from the spec: userLogsDir in state-passing form, returning the
computed path together with the environment after the call. The operation
only reads the ambient state, so the environment it returns is the one it
was given. -/
def userLogsDirRun (env : Env) : String × Env :=
  (userLogsDir env, env)

/-- Modelled from the spec: tailOfLatestBridgeLog in state-passing form,
returning the byte sequence together with the environment after the call.
Every step (directory listing, file selection, file read) is read-only, so
each branch returns the environment it was given. -/
def tailOfLatestBridgeLogRun (env : Env) : List Byte × Env :=
  match tryListLogsDir env with
  | none => ([], env)
  | some files =>
    match latestLogFile files with
    | none => ([], env)
    | some f =>
      match tryReadFile f with
      | none => ([], env)
      | some bs => (tailBytes logTailMaxSize bs, env)

/-- A path is absolute when its first character is the path separator. -/
def isAbsolutePath (s : String) : Bool :=
  match s.data with
  | [] => false
  | c :: _ => c == '/'

/-- A single readable log file, used as a concrete test input. -/
def logFileSingle : LogFile :=
  { name := "bridge.log", mtime := 5, contents := [7, 8, 9], readable := true }

/-- An environment whose logs directory holds exactly one readable file. -/
def envSingle : Env :=
  { osFacilityAvailable := true, userDataRoot := "/home/user/appdata",
    logsDirExists := true, files := [logFileSingle] }

/-- A single unreadable log file, used as a concrete test input. -/
def fileUnreadable : LogFile :=
  { name := "bridge.log", mtime := 1, contents := [1], readable := false }

/-- An environment whose logs directory holds exactly one unreadable file. -/
def envUnreadable : Env :=
  { osFacilityAvailable := true, userDataRoot := "/home/user/appdata",
    logsDirExists := true, files := [fileUnreadable] }

/-- The older of two log files, with contents A, B, C. -/
def fileAppOne : LogFile :=
  { name := "app-1.log", mtime := 1, contents := [65, 66, 67], readable := true }

/-- The newer of two log files, with contents X, Y, Z. -/
def fileAppTwo : LogFile :=
  { name := "app-2.log", mtime := 2, contents := [88, 89, 90], readable := true }

/-- An environment whose logs directory holds an older and a newer file. -/
def envTwoLogs : Env :=
  { osFacilityAvailable := true, userDataRoot := "/home/user/appdata",
    logsDirExists := true, files := [fileAppOne, fileAppTwo] }

/-- A newest log file that the user cannot read. -/
def fileNewerUnreadable : LogFile :=
  { name := "app-2.log", mtime := 2, contents := [88, 89, 90], readable := false }

/-- An environment whose newest log file is unreadable while an older
readable one exists. -/
def envNewestUnreadable : Env :=
  { osFacilityAvailable := true, userDataRoot := "/home/user/appdata",
    logsDirExists := true, files := [fileAppOne, fileNewerUnreadable] }

/-- An environment where the OS facility works but the logs directory does
not exist on disk. -/
def envNoDir : Env :=
  { osFacilityAvailable := true, userDataRoot := "/home/user/appdata",
    logsDirExists := false, files := [] }

/-- An environment where the OS per-user data facility is unavailable. -/
def envNoFacility : Env :=
  { osFacilityAvailable := false, userDataRoot := "",
    logsDirExists := false, files := [] }

/-- An environment with an absolute data root and no logs directory on
disk. -/
def envAbsentDir : Env :=
  { osFacilityAvailable := true, userDataRoot := "/home/user/.local/share",
    logsDirExists := false, files := [] }

/-- An environment that differs from envTwoLogs only in its file state. -/
def envFilesChanged : Env :=
  { osFacilityAvailable := true, userDataRoot := "/home/user/appdata",
    logsDirExists := false, files := [] }

/-- An environment owned by one user, with one log file. -/
def envRootA : Env :=
  { osFacilityAvailable := true, userDataRoot := "/home/alice/appdata",
    logsDirExists := true, files := [fileAppOne] }

/-- The same file state as envRootA under a different data root. -/
def envRootB : Env :=
  { osFacilityAvailable := true, userDataRoot := "/home/bob/appdata",
    logsDirExists := true, files := [fileAppOne] }

/-- The character ordering is irreflexive. -/
theorem charsLt_irrefl : ∀ l : List Char, charsLt l l = false
  | [] => rfl
  | a :: as => by
    unfold charsLt
    simp [charsLt_irrefl as]

/-- The character ordering is asymmetric. -/
theorem charsLt_asymm : ∀ l m : List Char, charsLt l m = true → charsLt m l = false
  | [], [] => by simp [charsLt]
  | [], _ :: _ => by intro h; rfl
  | _ :: _, [] => by intro h; exact absurd h (by simp [charsLt])
  | a :: as, b :: bs => by
    intro h
    unfold charsLt at h ⊢
    rcases Nat.lt_trichotomy a.toNat b.toNat with h1 | h1 | h1
    · rw [if_neg (by omega), if_pos h1]
    · rw [if_neg (by omega), if_neg (by omega)]
      rw [if_neg (by omega), if_neg (by omega)] at h
      exact charsLt_asymm as bs h
    · rw [if_neg (by omega), if_pos h1] at h
      exact absurd h (by simp)

/-- The recency ordering is irreflexive. -/
theorem fileLt_irrefl (f : LogFile) : ¬ fileLt f f := by
  simp [fileLt, nameLt, charsLt_irrefl]

/-- The recency ordering is asymmetric. -/
theorem fileLt_asymm {a b : LogFile} (h : fileLt a b) : ¬ fileLt b a := by
  unfold fileLt nameLt at h ⊢
  intro hc
  rcases h with h | ⟨he, hn⟩ <;> rcases hc with hc | ⟨hce, hcn⟩
  · omega
  · omega
  · omega
  · rw [charsLt_asymm _ _ hn] at hcn
    exact absurd hcn (by simp)

/-- latestOf keeps its first argument when the second is not strictly more
recent. -/
theorem latestOf_keep (a b : LogFile) (h : b = a ∨ fileLt b a) : latestOf a b = a := by
  unfold latestOf
  rcases h with h | h
  · subst h
    rw [if_neg (by omega), if_neg]
    intro hc
    exact absurd hc.2 (by simp [nameLt, charsLt_irrefl])
  · rcases h with h | ⟨he, hn⟩
    · rw [if_neg (by omega), if_neg (by omega)]
    · rw [if_neg (by omega), if_neg]
      intro hc
      exact absurd hc.2 (by simp [nameLt, charsLt_asymm _ _ hn, he])

/-- latestOf takes its second argument when it is at least as recent. -/
theorem latestOf_take (a b : LogFile) (h : a = b ∨ fileLt a b) : latestOf a b = b := by
  rcases h with h | h
  · subst h
    exact latestOf_keep a a (Or.inl rfl)
  · unfold latestOf
    rcases h with h | ⟨he, hn⟩
    · rw [if_pos h]
    · rw [if_neg (by omega), if_pos ⟨he, hn⟩]

/-- latestOf returns one of its two arguments. -/
theorem latestOf_cases (a b : LogFile) : latestOf a b = a ∨ latestOf a b = b := by
  unfold latestOf
  split
  · exact Or.inr rfl
  · split
    · exact Or.inr rfl
    · exact Or.inl rfl

/-- Folding latestOf over the directory contents returns the strictly
greatest file under the recency ordering. -/
theorem foldl_latestOf_greatest :
    ∀ (l : List LogFile) (acc f : LogFile),
      (acc = f ∨ fileLt acc f) → (f = acc ∨ f ∈ l) →
      (∀ g ∈ l, g = f ∨ fileLt g f) →
      l.foldl latestOf acc = f
  | [], acc, f, hacc, hmem, _ => by
    simp only [List.foldl_nil]
    rcases hmem with h | h
    · exact h.symm
    · exact absurd h (List.not_mem_nil f)
  | g :: t, acc, f, hacc, hmem, hall => by
    simp only [List.foldl_cons]
    have hg : g = f ∨ fileLt g f := hall g (List.mem_cons_self g t)
    have hallt : ∀ x ∈ t, x = f ∨ fileLt x f :=
      fun x hx => hall x (List.mem_cons_of_mem g hx)
    rcases hacc with hacc | hacc
    · have hkeep : latestOf acc g = acc := by
        refine latestOf_keep acc g ?_
        rcases hg with h | h
        · exact Or.inl (h.trans hacc.symm)
        · exact Or.inr (hacc ▸ h)
      rw [hkeep]
      exact foldl_latestOf_greatest t acc f (Or.inl hacc) (Or.inl hacc.symm) hallt
    · rcases hg with hg | hg
      · have htake : latestOf acc g = g := by
          refine latestOf_take acc g (Or.inr ?_)
          exact hg ▸ hacc
        rw [htake]
        exact foldl_latestOf_greatest t g f (Or.inl hg) (Or.inl hg.symm) hallt
      · have hmemt : f ∈ t := by
          rcases hmem with h | h
          · exact absurd (h ▸ hacc) (fileLt_irrefl f)
          · rcases List.mem_cons.mp h with h | h
            · exact absurd (h ▸ hg) (fileLt_irrefl f)
            · exact h
        have hlt : fileLt (latestOf acc g) f := by
          rcases latestOf_cases acc g with h | h
          · rw [h]; exact hacc
          · rw [h]; exact hg
        exact foldl_latestOf_greatest t (latestOf acc g) f (Or.inr hlt) (Or.inr hmemt) hallt

/-- The latest-file selection returns the strictly greatest file under the
recency ordering whenever one exists. -/
theorem latestLogFile_eq_greatest (l : List LogFile) (f : LogFile)
    (hMem : f ∈ l) (hGr : ∀ g ∈ l, g ≠ f → fileLt g f) :
    latestLogFile l = some f := by
  cases l with
  | nil => exact absurd hMem (List.not_mem_nil f)
  | cons h t =>
    show some (t.foldl latestOf h) = some f
    refine congrArg some (foldl_latestOf_greatest t h f ?_ ?_ ?_)
    · by_cases hh : h = f
      · exact Or.inl hh
      · exact Or.inr (hGr h (List.mem_cons_self h t) hh)
    · rcases List.mem_cons.mp hMem with h1 | h1
      · exact Or.inl h1
      · exact Or.inr h1
    · intro g hgmem
      by_cases hgf : g = f
      · exact Or.inl hgf
      · exact Or.inr (hGr g (List.mem_cons_of_mem h hgmem) hgf)

/-- A successful directory listing returns exactly the directory contents. -/
theorem tryListLogsDir_eq_some {env : Env} {files : List LogFile}
    (h : tryListLogsDir env = some files) : files = env.files := by
  unfold tryListLogsDir at h
  split at h
  · exact (Option.some.inj h).symm
  · exact absurd h (by simp)

/-- Claim C2: every invocation returns at most logTailMaxSize bytes. -/
theorem tailOfLatestBridgeLog_length_le_cap (env : Env) :
    (tailOfLatestBridgeLog env).length ≤ logTailMaxSize := by
  unfold tailOfLatestBridgeLog
  cases h1 : tryListLogsDir env with
  | none => simp
  | some files =>
    cases h2 : latestLogFile files with
    | none => simp [h2]
    | some f =>
      cases h3 : tryReadFile f with
      | none => simp [h2, h3]
      | some bs =>
        simp only [h2, h3, tailBytes, List.length_drop]
        omega

/-- Claim C1 (amended): for every environment whose resolved logs directory
contains exactly one readable log file, tailOfLatestBridgeLog returns
exactly the suffix of that file of length min of size and cap: the entire
contents when the file fits under the cap. -/
theorem tailOfLatestBridgeLog_single (env : Env) (f : LogFile)
    (hAvail : env.osFacilityAvailable = true)
    (hDir : env.logsDirExists = true)
    (hFiles : env.files = [f])
    (hRead : f.readable = true) :
    tailOfLatestBridgeLog env = f.contents.drop (f.contents.length - logTailMaxSize)
    ∧ (tailOfLatestBridgeLog env).length = min f.contents.length logTailMaxSize
    ∧ (f.contents.length ≤ logTailMaxSize → tailOfLatestBridgeLog env = f.contents) := by
  have hlist : tryListLogsDir env = some env.files := by
    unfold tryListLogsDir
    rw [if_pos ⟨hAvail, hDir⟩]
  have hlat : latestLogFile env.files = some f := by
    rw [hFiles]
    rfl
  have hread : tryReadFile f = some f.contents := by
    unfold tryReadFile
    rw [if_pos hRead]
  have hmain : tailOfLatestBridgeLog env = f.contents.drop (f.contents.length - logTailMaxSize) := by
    simp only [tailOfLatestBridgeLog, hlist, hlat, hread, tailBytes]
  refine ⟨hmain, ?_, ?_⟩
  · rw [hmain, List.length_drop]
    omega
  · intro hle
    rw [hmain, Nat.sub_eq_zero_of_le hle, List.drop_zero]

/-- Witness for claim C1: a directory with one readable three-byte file. -/
theorem tailOfLatestBridgeLog_single_witness :
    tailOfLatestBridgeLog envSingle
        = logFileSingle.contents.drop (logFileSingle.contents.length - logTailMaxSize)
    ∧ (tailOfLatestBridgeLog envSingle).length = min logFileSingle.contents.length logTailMaxSize
    ∧ (logFileSingle.contents.length ≤ logTailMaxSize →
        tailOfLatestBridgeLog envSingle = logFileSingle.contents) :=
  tailOfLatestBridgeLog_single envSingle logFileSingle rfl rfl rfl rfl

/-- Counterexample for claim C1 as stated: a directory with exactly one log
file that is unreadable yields the empty sequence, not the suffix of the
file of length min of size and cap. -/
theorem tailOfLatestBridgeLog_single_cex :
    envUnreadable.files = [fileUnreadable]
    ∧ tailOfLatestBridgeLog envUnreadable
        ≠ fileUnreadable.contents.drop (fileUnreadable.contents.length - logTailMaxSize) := by
  decide

/-- Claim C3: every failure environment (facility unavailable, directory
absent, directory empty, or latest file empty or unreadable) yields the
empty byte sequence, and a failed path resolution yields the empty path;
no error is ever raised since both operations are total functions. -/
theorem ops_never_error (env : Env)
    (h : env.osFacilityAvailable = false ∨ env.logsDirExists = false ∨ env.files = [] ∨
         (∀ f, latestLogFile env.files = some f → f.contents = [] ∨ f.readable = false)) :
    tailOfLatestBridgeLog env = []
    ∧ (env.osFacilityAvailable = false → userLogsDir env = "") := by
  constructor
  · unfold tailOfLatestBridgeLog
    cases hl : tryListLogsDir env with
    | none => rfl
    | some files =>
      have hfe : files = env.files := tryListLogsDir_eq_some hl
      have hcond : env.osFacilityAvailable = true ∧ env.logsDirExists = true := by
        unfold tryListLogsDir at hl
        split at hl
        · assumption
        · exact absurd hl (by simp)
      rcases h with h | h | h | h
      · rw [h] at hcond
        exact absurd hcond.1 (by simp)
      · rw [h] at hcond
        exact absurd hcond.2 (by simp)
      · rw [hfe, h]
        rfl
      · cases hlat : latestLogFile files with
        | none => simp only [hlat]
        | some f =>
          rcases h f (hfe ▸ hlat) with hc | hr
          · cases hrd : tryReadFile f with
            | none => simp only [hlat, hrd]
            | some bs =>
              have hbs : bs = f.contents := by
                unfold tryReadFile at hrd
                split at hrd
                · exact (Option.some.inj hrd).symm
                · exact absurd hrd (by simp)
              simp [hlat, hrd, hbs, hc, tailBytes]
          · have hrn : tryReadFile f = none := by
              unfold tryReadFile
              rw [if_neg]
              simp [hr]
            simp only [hlat, hrn]
  · intro hA
    unfold userLogsDir
    rw [if_neg]
    simp [hA]

/-- Witness for claim C3: the logs directory does not exist on disk. -/
theorem ops_never_error_witness :
    tailOfLatestBridgeLog envNoDir = []
    ∧ (envNoDir.osFacilityAvailable = false → userLogsDir envNoDir = "") :=
  ops_never_error envNoDir (Or.inr (Or.inl rfl))

/-- Claim C4 (amended): for every environment whose resolved logs directory
contains multiple log files, tailOfLatestBridgeLog returns the tail of the
single readable file that is strictly greatest under the recency ordering
(most recent timestamp, ties broken by the greater name), never the tail of
any older file. -/
theorem tailOfLatestBridgeLog_latest (env : Env) (f : LogFile)
    (hAvail : env.osFacilityAvailable = true)
    (hDir : env.logsDirExists = true)
    (hMem : f ∈ env.files)
    (_hMulti : 2 ≤ env.files.length)
    (hGr : ∀ g ∈ env.files, g ≠ f → fileLt g f)
    (hRead : f.readable = true) :
    tailOfLatestBridgeLog env = tailBytes logTailMaxSize f.contents := by
  have hlist : tryListLogsDir env = some env.files := by
    unfold tryListLogsDir
    rw [if_pos ⟨hAvail, hDir⟩]
  have hlat : latestLogFile env.files = some f := latestLogFile_eq_greatest env.files f hMem hGr
  have hread : tryReadFile f = some f.contents := by
    unfold tryReadFile
    rw [if_pos hRead]
  simp only [tailOfLatestBridgeLog, hlist, hlat, hread]

/-- Witness for claim C4: of the files app-1.log (older, contents A, B, C)
and app-2.log (newer, contents X, Y, Z), the newer one is returned. -/
theorem tailOfLatestBridgeLog_latest_witness :
    tailOfLatestBridgeLog envTwoLogs = [88, 89, 90] := by
  have h := tailOfLatestBridgeLog_latest envTwoLogs fileAppTwo rfl rfl
    (by decide) (by decide) (by decide) rfl
  exact h.trans (by decide)

/-- Counterexample for claim C4 as stated: when the file selected by the
recency ordering is unreadable, the call returns the empty sequence, not
the tail of that latest file. -/
theorem tailOfLatestBridgeLog_latest_cex :
    (∀ g ∈ envNewestUnreadable.files, g ≠ fileNewerUnreadable → fileLt g fileNewerUnreadable)
    ∧ tailOfLatestBridgeLog envNewestUnreadable
        ≠ tailBytes logTailMaxSize fileNewerUnreadable.contents := by
  decide

/-- Claim C5: userLogsDir is a pure, deterministic function of the ambient
environment; two calls whose environments agree on the inputs the operation
observes (facility availability and the per-user data root) return the
identical path, in particular two consecutive calls with no environment
change. -/
theorem userLogsDir_deterministic (e1 e2 : Env)
    (hA : e1.osFacilityAvailable = e2.osFacilityAvailable)
    (hR : e1.userDataRoot = e2.userDataRoot) :
    userLogsDir e1 = userLogsDir e2 := by
  unfold userLogsDir
  rw [hA, hR]

/-- Witness for claim C5: the path is unchanged between two calls even when
the file state changed in between. -/
theorem userLogsDir_deterministic_witness :
    userLogsDir envTwoLogs = userLogsDir envFilesChanged :=
  userLogsDir_deterministic envTwoLogs envFilesChanged rfl rfl

/-- Claim C6 (amended): whenever the OS per-user data facility is available
and yields an absolute data root, userLogsDir returns a non-empty absolute
path, even when the logs directory does not exist on disk; when the
facility is unavailable the result may be the empty path. -/
theorem userLogsDir_wellFormed (env : Env)
    (hAvail : env.osFacilityAvailable = true)
    (hRoot : isAbsolutePath env.userDataRoot = true) :
    userLogsDir env ≠ "" ∧ isAbsolutePath (userLogsDir env) = true := by
  unfold userLogsDir
  rw [hAvail]
  simp only [if_true]
  constructor
  · intro hEq
    have hdata : env.userDataRoot.data ++ logsSubPath.data = [] := by
      have := congrArg String.data hEq
      simpa [String.data_append] using this
    have : logsSubPath.data = [] := (List.append_eq_nil.mp hdata).2
    simp [logsSubPath] at this
  · unfold isAbsolutePath at hRoot ⊢
    cases hd : env.userDataRoot.data with
    | nil =>
      rw [hd] at hRoot
      exact absurd hRoot (by simp)
    | cons c rest =>
      rw [hd] at hRoot
      simp only [String.data_append, hd, List.cons_append]
      exact hRoot

/-- Witness for claim C6: an absolute user data root with no logs directory
on disk still yields a non-empty absolute path. -/
theorem userLogsDir_wellFormed_witness :
    userLogsDir envAbsentDir ≠ "" ∧ isAbsolutePath (userLogsDir envAbsentDir) = true :=
  userLogsDir_wellFormed envAbsentDir rfl (by decide)

/-- Counterexample for claim C6 as stated: when the OS per-user data
facility is unavailable, userLogsDir returns the empty path, which is
neither non-empty nor absolute. -/
theorem userLogsDir_wellFormed_cex :
    userLogsDir envNoFacility = ""
    ∧ isAbsolutePath (userLogsDir envNoFacility) = false := by
  decide

/-- Claim C7: neither operation mutates the environment: in state-passing
form each call returns its result together with the environment it was
given, unchanged, so every file and directory is left as it was. -/
theorem ops_no_side_effects (env : Env) :
    userLogsDirRun env = (userLogsDir env, env)
    ∧ tailOfLatestBridgeLogRun env = (tailOfLatestBridgeLog env, env) := by
  refine ⟨rfl, ?_⟩
  unfold tailOfLatestBridgeLogRun tailOfLatestBridgeLog
  cases h1 : tryListLogsDir env with
  | none => rfl
  | some files =>
    cases h2 : latestLogFile files with
    | none => simp [h2]
    | some f =>
      cases h3 : tryReadFile f with
      | none => simp [h2, h3]
      | some bs => simp [h2, h3]

/-- Claim C9: tailOfLatestBridgeLog is deterministic in the ambient
environment; two calls whose environments agree on the inputs the operation
observes (facility availability, directory existence and directory
contents) return identical byte sequences, in particular any two calls
against an identical environment. -/
theorem tailOfLatestBridgeLog_deterministic (e1 e2 : Env)
    (hA : e1.osFacilityAvailable = e2.osFacilityAvailable)
    (hD : e1.logsDirExists = e2.logsDirExists)
    (hF : e1.files = e2.files) :
    tailOfLatestBridgeLog e1 = tailOfLatestBridgeLog e2 := by
  unfold tailOfLatestBridgeLog tryListLogsDir
  rw [hA, hD, hF]

/-- Witness for claim C9: the tail is unchanged across two environments
that differ only in the user data root. -/
theorem tailOfLatestBridgeLog_deterministic_witness :
    tailOfLatestBridgeLog envRootA = tailOfLatestBridgeLog envRootB :=
  tailOfLatestBridgeLog_deterministic envRootA envRootB rfl rfl rfl

/-- Claim C10: both operations are total functions into plain value types:
for every environment state each call returns some, possibly empty, value,
with no null or error result representable at the interface. -/
theorem ops_total (env : Env) :
    ∃ (s : String) (bs : List Byte),
      userLogsDir env = s ∧ tailOfLatestBridgeLog env = bs :=
  ⟨userLogsDir env, tailOfLatestBridgeLog env, rfl, rfl⟩

end bridgepp
